import Mathlib

/-!
Verification of the `find-biomes` nearest-biome search utility.

The development shallowly embeds `src/find_biomes.py`:

* `Chunk`, `Block`, `Biome` — the data model (tile descriptors from the
  chunks overview, per-cell records of a fetched tile, and catalog entries).
* `all_chunks_sorted_by_distance` — the grid index builder (lines 36–50):
  tiles grouped by Manhattan tile distance from the start tile
  (`start // 16`, Python floor division = `Int.fdiv`), groups emitted in
  increasing distance, discovery (input) order within a group.
* `get_closest_coords` (lines 57–82) — the search engine: early-stop test,
  per-tile cell scan, strict-improvement update of the per-biome state.
  The per-biome accumulator dict `{'x':…, 'z':…, 'found_chunk_distance':…}`
  only ever holds either three `None`s (line 60) or three populated fields
  (lines 75–79), so it is embedded as the two-constructor `BiomeState`.
  The lookup `Biome[block['biome']]` (line 72) raises `KeyError` for a tag
  absent from the catalog; that error channel is kept (`Except`).
* the cache/network layer (lines 24–27, 52–55, 84–91), with an explicit
  request counter, for the caching claims.
* the CLI glue (lines 93–119) for the selection and output claims.

Definitions come first, then the supporting lemmas, then one theorem per
claim (with witnesses and counterexamples next to them).
-/

namespace FindBiomes

/-- A tile descriptor from the chunks overview: tile coordinates only. -/
structure Chunk where
  x : Int
  z : Int
deriving DecidableEq, Repr

/-- One cell record of a fetched tile: world coordinate and biome tag. -/
structure Block where
  x : Int
  z : Int
  biome : String
deriving DecidableEq, Repr

/-- A biome catalog entry (lines 31–34): string key, numeric code, and the
`adventuringTime` flag. -/
structure Biome where
  name : String
  code : Nat
  adventuringTime : Bool
deriving DecidableEq, Repr

/-- Manhattan distance in tile units from the start tile to a tile
(line 47: `abs(chunk['x'] - start_chunk_x) + abs(chunk['z'] - start_chunk_z)`). -/
def chunkDistance (start_chunk_x start_chunk_z : Int) (c : Chunk) : Nat :=
  (c.x - start_chunk_x).natAbs + (c.z - start_chunk_z).natAbs

/-- Manhattan distance in cell units from the start point to a cell
(line 74: `abs(block['x'] - start_x) + abs(block['z'] - start_z)`). -/
def cellDistance (start_x start_z : Int) (x z : Int) : Nat :=
  (x - start_x).natAbs + (z - start_z).natAbs

/-- The grid index builder (lines 36–50): every known tile is keyed by its
Manhattan tile distance from the start tile (`start_x // 16`,
`start_z // 16`; Python `//` is floor division, i.e. `Int.fdiv`), and the
groups are emitted in increasing distance with discovery order inside a
group — exactly the `defaultdict` grouping plus `sorted(result.items())`
of the source. -/
def all_chunks_sorted_by_distance (overworld : List Chunk) (start_x start_z : Int) :
    List (Nat × Chunk) :=
  let start_chunk_x := Int.fdiv start_x 16
  let start_chunk_z := Int.fdiv start_z 16
  let maxD := (overworld.map (chunkDistance start_chunk_x start_chunk_z)).foldr max 0
  (List.range (maxD + 1)).flatMap fun d =>
    (overworld.filter fun c => chunkDistance start_chunk_x start_chunk_z c = d).map
      fun c => (d, c)

/-- The per-biome accumulator of `get_closest_coords`. The dict initialized
at line 60 holds `None` in all three fields; the replacement at lines 75–79
populates all three. No other shape occurs, so the state is either
`notFound` or `found found_chunk_distance x z`. -/
inductive BiomeState where
  | notFound : BiomeState
  | found (found_chunk_distance : Nat) (x : Int) (z : Int) : BiomeState
deriving DecidableEq, Repr

/-- The `result` mapping of `get_closest_coords`, keyed by biome name (enum
members are in bijection with their string keys). Names outside the
requested set are never stored to and read back `notFound`. -/
abbrev ResultMap := String → BiomeState

/-- Lines 59–62: every requested biome starts out not found. -/
def initResult : ResultMap := fun _ => BiomeState.notFound

/-- The inputs fixed for one search: the biome catalog (lines 31–34), the
per-tile slice-0 cell grids served by the data service (the `chunk_data[0]`
of line 70 for each tile coordinate), the requested biome names, and the
start coordinates. -/
structure SearchCtx where
  catalog : List Biome
  world : Int → Int → List (List Block)
  biomes : List String
  start_x : Int
  start_z : Int

/-- Manhattan cell distance of a block from the start point (line 74). -/
def blockDistance (ctx : SearchCtx) (blk : Block) : Nat :=
  cellDistance ctx.start_x ctx.start_z blk.x blk.z

/-- Lines 73–79: if the block's biome is under search, replace that biome's
state when there is no match yet or the block is strictly closer (in
Manhattan cell distance) than the stored match; the stored
`found_chunk_distance` is the tile distance of the tile being scanned. -/
def updateBlock (ctx : SearchCtx) (chunk_distance : Nat) (res : ResultMap)
    (blk : Block) : ResultMap :=
  if blk.biome ∈ ctx.biomes then
    match res blk.biome with
    | BiomeState.notFound =>
        fun s => if s = blk.biome then BiomeState.found chunk_distance blk.x blk.z else res s
    | BiomeState.found _ px pz =>
        if blockDistance ctx blk < cellDistance ctx.start_x ctx.start_z px pz then
          fun s => if s = blk.biome then BiomeState.found chunk_distance blk.x blk.z else res s
        else res
  else res

/-- Line 72: `Biome[block['biome']]` raises `KeyError` when the tag is not in
the catalog; otherwise lines 73–79 run for each block of a row. -/
def scanBlocks (ctx : SearchCtx) (chunk_distance : Nat) :
    List Block → ResultMap → Except String ResultMap
  | [], res => Except.ok res
  | blk :: rest, res =>
    if (ctx.catalog.find? fun b => b.name = blk.biome).isSome then
      scanBlocks ctx chunk_distance rest (updateBlock ctx chunk_distance res blk)
    else Except.error blk.biome

/-- Lines 70–79: the scan over `chunk_data[0]`, row by row. -/
def scanRows (ctx : SearchCtx) (chunk_distance : Nat) :
    List (List Block) → ResultMap → Except String ResultMap
  | [], res => Except.ok res
  | row :: rest, res =>
    match scanBlocks ctx chunk_distance row res with
    | Except.error e => Except.error e
    | Except.ok res1 => scanRows ctx chunk_distance rest res1

/-- The early-stop test of line 67: every requested biome must already have a
found match whose recorded tile distance is more than 3 below the current
tile distance. -/
def stop_condition (ctx : SearchCtx) (res : ResultMap) (chunk_distance : Nat) : Bool :=
  ctx.biomes.all fun b =>
    match res b with
    | BiomeState.notFound => false
    | BiomeState.found fcd _ _ => decide (fcd + 3 < chunk_distance)

/-- The tile loop of lines 63–79: test the early stop before fetching the
tile's cell grid; on stop, return the accumulated result. -/
def searchChunks (ctx : SearchCtx) :
    List (Nat × Chunk) → ResultMap → Except String ResultMap
  | [], res => Except.ok res
  | (chunk_distance, chunk) :: rest, res =>
    if stop_condition ctx res chunk_distance then Except.ok res
    else
      match scanRows ctx chunk_distance (ctx.world chunk.x chunk.z) res with
      | Except.error e => Except.error e
      | Except.ok res1 => searchChunks ctx rest res1

/-- The tile sequence consumed by one search (line 58). -/
def chunkSeq (ctx : SearchCtx) (overworld : List Chunk) : List (Nat × Chunk) :=
  all_chunks_sorted_by_distance overworld ctx.start_x ctx.start_z

/-- `get_closest_coords` (lines 57–82) with the fetched overview made
explicit: scan the distance-sorted tile sequence from the all-not-found
state. -/
def get_closest_coords (ctx : SearchCtx) (overworld : List Chunk) :
    Except String ResultMap :=
  searchChunks ctx (chunkSeq ctx overworld) initResult

/-- Modelled from the spec: the exhaustive scan of the entire tile sequence,
i.e. the same tile loop without the early-stop test, used as the reference
point of the early-stop soundness claim. -/
def exhaustiveChunks (ctx : SearchCtx) :
    List (Nat × Chunk) → ResultMap → Except String ResultMap
  | [], res => Except.ok res
  | (chunk_distance, chunk) :: rest, res =>
    match scanRows ctx chunk_distance (ctx.world chunk.x chunk.z) res with
    | Except.error e => Except.error e
    | Except.ok res1 => exhaustiveChunks ctx rest res1

/-- Modelled from the spec: `get_closest_coords` with the early stop removed. -/
def exhaustive_scan (ctx : SearchCtx) (overworld : List Chunk) :
    Except String ResultMap :=
  exhaustiveChunks ctx (chunkSeq ctx overworld) initResult

/-- The tile loop instrumented with the number of tiles whose cell grids were
fetched (the loop body reached line 69); the early stop returns before the
current tile is fetched. -/
def searchChunksTrace (ctx : SearchCtx) :
    List (Nat × Chunk) → ResultMap → Except String (ResultMap × Nat)
  | [], res => Except.ok (res, 0)
  | (chunk_distance, chunk) :: rest, res =>
    if stop_condition ctx res chunk_distance then Except.ok (res, 0)
    else
      match scanRows ctx chunk_distance (ctx.world chunk.x chunk.z) res with
      | Except.error e => Except.error e
      | Except.ok res1 =>
        match searchChunksTrace ctx rest res1 with
        | Except.error e => Except.error e
        | Except.ok (r, n) => Except.ok (r, n + 1)

/-- Modelled from the claim's wording of the early-stop test, for comparison
with the source's `stop_condition`: quantify only over the requested biomes
that currently have a found match (a biome without a match imposes no
constraint). -/
def claimed_stop_condition (ctx : SearchCtx) (res : ResultMap) (chunk_distance : Nat) : Bool :=
  ctx.biomes.all fun b =>
    match res b with
    | BiomeState.notFound => true
    | BiomeState.found fcd _ _ => decide (fcd + 3 < chunk_distance)

/-- A tile's cell grid is well-formed when each of its cells lies inside the
tile: the cell's tile coordinates (floor division by 16) are the tile's. -/
def chunkWellFormed (world : Int → Int → List (List Block)) (c : Chunk) : Prop :=
  ∀ row ∈ world c.x c.z, ∀ blk ∈ row,
    Int.fdiv blk.x 16 = c.x ∧ Int.fdiv blk.z 16 = c.z

instance (world : Int → Int → List (List Block)) (c : Chunk) :
    Decidable (chunkWellFormed world c) := by
  unfold chunkWellFormed; infer_instance

/-- A tile's cell grid is catalog-valid when every cell's biome tag occurs in
the catalog (so line 72 raises no `KeyError`). -/
def chunkValid (catalog : List Biome) (world : Int → Int → List (List Block))
    (c : Chunk) : Prop :=
  ∀ row ∈ world c.x c.z, ∀ blk ∈ row,
    (catalog.find? fun b => b.name = blk.biome).isSome = true

instance (catalog : List Biome) (world : Int → Int → List (List Block)) (c : Chunk) :
    Decidable (chunkValid catalog world c) := by
  unfold chunkValid; infer_instance

/-- A cell of biome `b` present in the dataset: it sits in the grid of a tile
listed in the overview. -/
def isInstanceOf (world : Int → Int → List (List Block)) (overworld : List Chunk)
    (b : String) (c : Chunk) (blk : Block) : Prop :=
  c ∈ overworld ∧ ∃ row ∈ world c.x c.z, blk ∈ row ∧ blk.biome = b

/-- The monotone-evolution order on search states: every biome found in `res`
is still found in `res'`, at a Manhattan cell distance at most the one of
the match stored in `res`. -/
def StateLE (ctx : SearchCtx) (res res' : ResultMap) : Prop :=
  ∀ b d x z, res b = BiomeState.found d x z →
    ∃ d' x' z', res' b = BiomeState.found d' x' z' ∧
      cellDistance ctx.start_x ctx.start_z x' z' ≤ cellDistance ctx.start_x ctx.start_z x z

/-- A biome-found invariant bound used by the early-stop argument: a match
recorded with tile distance `d` lies at cell distance at most `16*d + 30`. -/
def InvDist (ctx : SearchCtx) (res : ResultMap) : Prop :=
  ∀ b d x z, res b = BiomeState.found d x z →
    cellDistance ctx.start_x ctx.start_z x z ≤ 16 * d + 30

/-- Per-biome result soundness: every found entry names a cell that is
present in the dataset and carries that biome. -/
def SoundRes (ctx : SearchCtx) (overworld : List Chunk) (res : ResultMap) : Prop :=
  ∀ b d x z, res b = BiomeState.found d x z →
    ∃ c blk, isInstanceOf ctx.world overworld b c blk ∧ blk.x = x ∧ blk.z = z

/-- The process-lifetime cache (lines 24–27): the chunks overview and the
resolved world name, both starting out absent. There is no per-tile entry. -/
structure Cache where
  all_chunks : Option (List Chunk)
  world : Option String
deriving DecidableEq, Repr

/-- One run's mutable fetch state: the cache plus a count of network
requests performed (each `requests.get` adds one). -/
structure RunState where
  cache : Cache
  calls : Nat
deriving DecidableEq, Repr

/-- The fixed remote data service: the worlds listing (name and `main`
flag), the chunks overview, and the per-tile cell grids. -/
structure Net where
  worlds : List (String × Bool)
  overview : List Chunk
  chunk : Int → Int → List (List Block)

/-- Lines 24–27: both cache slots start empty; no requests made yet. -/
def initRunState : RunState := RunState.mk (Cache.mk none none) 0

/-- `more_itertools.one` (line 90): exactly one element, else an error. -/
def one? {α : Type} : List α → Option α
  | [a] => some a
  | _ => none

/-- `get_world` (lines 84–91): an explicit `--world` argument short-circuits;
otherwise the resolved main-world name is cached, with one `worlds.json`
request on first resolution. -/
def get_world (world_arg : Option String) (net : Net) (st : RunState) :
    Except String (String × RunState) :=
  match world_arg with
  | some w => Except.ok (w, st)
  | none =>
    match st.cache.world with
    | some w => Except.ok (w, st)
    | none =>
      match one? ((net.worlds.filter fun p => p.2).map Prod.fst) with
      | some w => Except.ok (w, RunState.mk (Cache.mk st.cache.all_chunks (some w)) (st.calls + 1))
      | none => Except.error "world"

/-- `api_json` for a per-tile chunk request (lines 52–55, called at line 69):
resolve the world name, then perform the request — every call performs a
request; there is no per-tile cache slot. -/
def api_json_chunk (world_arg : Option String) (net : Net) (st : RunState)
    (cx cz : Int) : Except String (List (List Block) × RunState) :=
  match get_world world_arg net st with
  | Except.error e => Except.error e
  | Except.ok (_, st1) => Except.ok (net.chunk cx cz, RunState.mk st1.cache (st1.calls + 1))

/-- Lines 37–42: the chunks overview is fetched through `api_json` at most
once and stored in `CACHE['all_chunks']`. -/
def fetch_all_chunks (world_arg : Option String) (net : Net) (st : RunState) :
    Except String (List Chunk × RunState) :=
  match st.cache.all_chunks with
  | some l => Except.ok (l, st)
  | none =>
    match get_world world_arg net st with
    | Except.error e => Except.error e
    | Except.ok (_, st1) =>
      Except.ok (net.overview,
        RunState.mk (Cache.mk (some net.overview) st1.cache.world) (st1.calls + 1))

/-- Stable insertion into a list sorted by numeric biome code. -/
def insertByCode (b : Biome) : List Biome → List Biome
  | [] => [b]
  | c :: rest => if b.code ≤ c.code then b :: c :: rest else c :: insertByCode b rest

/-- Line 114: `sorted(biomes, key=lambda biome: biome.value[0])` — a stable
sort by numeric biome code. -/
def sortByCode : List Biome → List Biome
  | [] => []
  | b :: rest => insertByCode b (sortByCode rest)

/-- Line 115: `result[biome] is None`. The per-biome value is the dict
created at line 60 or lines 75–79, never the value `None`, so this test is
false for every state. -/
def is_none (_ : BiomeState) : Bool := false

/-- The output loop of lines 114–119 over the code-sorted requested biomes.
The `if result[biome] is None` branch (which would print the not-found
line) is unreachable; the else branch executes `x, z = result`, which
unpacks the keys of the result mapping itself: with exactly two requested
biomes the unpacking succeeds and binds two Biome members, making the
subsequent `abs(x - start_x)` raise TypeError; with any other number of
keys the unpacking itself raises ValueError. -/
def print_result_lines (biomes : List Biome) (result : ResultMap)
    (_start_x _start_z : Int) : List Biome → Except String (List String)
  | [] => Except.ok []
  | b :: rest =>
    if is_none (result b.name) then
      match print_result_lines biomes result _start_x _start_z rest with
      | Except.error e => Except.error e
      | Except.ok ls => Except.ok (("[ !! ] " ++ b.name ++ ": not found") :: ls)
    else
      if biomes.length = 2 then Except.error "TypeError"
      else Except.error "ValueError"

/-- The final output step (lines 113–119): iterate the requested biomes in
catalog-code order. -/
def print_results (biomes : List Biome) (result : ResultMap)
    (start_x start_z : Int) : Except String (List String) :=
  print_result_lines biomes result start_x start_z (sortByCode biomes)

/-- Line 98: `Biome[biome_str]` per positional argument; an unknown
identifier raises `KeyError`. -/
def lookupBiomes (catalog : List Biome) : List String → Except String (List Biome)
  | [] => Except.ok []
  | s :: rest =>
    match catalog.find? fun b => b.name = s with
    | none => Except.error s
    | some b =>
      match lookupBiomes catalog rest with
      | Except.error e => Except.error e
      | Except.ok bs => Except.ok (b :: bs)

/-- The biome-selection glue (lines 95–100). `if arguments['adv-time']:`
computes the advancement-tracked subset, but the following independent
`if arguments['<biome>']: … else: …` reassigns `biomes`, and its else
branch — taken exactly when no positional biome arguments are given, which
is always the case in adv-time mode — reassigns the full catalog, so the
adv-time selection is discarded (dead store). -/
def select_biomes (catalog : List Biome) (adv_time : Bool) (positional : List String) :
    Except String (List Biome) :=
  let _biomes_adv_time := if adv_time then catalog.filter fun b => b.adventuringTime else []
  if positional.isEmpty then Except.ok catalog
  else lookupBiomes catalog positional

/-- Concrete fixture: a small biome catalog. -/
def catalogW : List Biome :=
  [Biome.mk "plains" 1 false, Biome.mk "desert" 2 true, Biome.mk "ocean" 0 false]

/-- Concrete fixture: the only plains cell of the dataset sits at (1,2) in
tile (0,0); every other tile is one ocean cell at its corner. -/
def worldW : Int → Int → List (List Block) := fun cx cz =>
  if cx = 0 ∧ cz = 0 then [[Block.mk 1 2 "plains"]]
  else [[Block.mk (16 * cx) (16 * cz) "ocean"]]

/-- Concrete fixture: a two-tile overview, tile distances 0 and 5 from the
origin. -/
def overworldW : List Chunk := [Chunk.mk 0 0, Chunk.mk 0 5]

/-- Concrete fixture: search for plains only, from (0,0). -/
def ctx1W : SearchCtx := SearchCtx.mk catalogW worldW ["plains"] 0 0

/-- Concrete fixture: search for plains and desert (the latter absent from
the dataset), from (0,0). -/
def ctx2W : SearchCtx := SearchCtx.mk catalogW worldW ["plains", "desert"] 0 0

/-- Concrete fixture: search for desert only (absent), from (0,0). -/
def ctx3W : SearchCtx := SearchCtx.mk catalogW worldW ["desert"] 0 0

/-- Concrete fixture: a data service with a single main world. -/
def netW : Net := Net.mk [("wurstmineberg", true)] overworldW worldW

lemma mem_all_chunks_sorted {overworld : List Chunk} {start_x start_z : Int}
    {p : Nat × Chunk} (hp : p ∈ all_chunks_sorted_by_distance overworld start_x start_z) :
    p.2 ∈ overworld ∧
      p.1 = chunkDistance (Int.fdiv start_x 16) (Int.fdiv start_z 16) p.2 := by
  unfold all_chunks_sorted_by_distance at hp
  simp only [List.mem_flatMap, List.mem_map, List.mem_filter, List.mem_range] at hp
  obtain ⟨d, _, c, ⟨hc, hdist⟩, rfl⟩ := hp
  exact ⟨hc, by simpa using (of_decide_eq_true hdist).symm⟩

lemma pairwise_fst_flatMap_range (g : Nat → List (Nat × Chunk))
    (hg : ∀ d p, p ∈ g d → p.1 = d) (n : Nat) :
    ((List.range n).flatMap g).Pairwise fun p q => p.1 ≤ q.1 := by
  induction n with
  | zero => simp
  | succ m ih =>
    rw [List.range_succ, List.flatMap_append, List.pairwise_append]
    refine ⟨ih, ?_, ?_⟩
    · simp only [List.flatMap_cons, List.flatMap_nil, List.append_nil]
      refine List.pairwise_of_forall_mem_list ?_
      intro p hp q hq
      rw [hg m p hp, hg m q hq]
    · intro p hp q hq
      simp only [List.mem_flatMap, List.mem_range] at hp
      simp only [List.flatMap_cons, List.flatMap_nil, List.append_nil] at hq
      obtain ⟨d, hd, hpd⟩ := hp
      rw [hg d p hpd, hg m q hq]
      exact Nat.le_of_lt hd

lemma all_chunks_sorted_pairwise (overworld : List Chunk) (start_x start_z : Int) :
    (all_chunks_sorted_by_distance overworld start_x start_z).Pairwise
      fun p q => p.1 ≤ q.1 := by
  refine pairwise_fst_flatMap_range _ ?_ _
  intro d p hp
  simp only [List.mem_map, List.mem_filter] at hp
  obtain ⟨c, _, rfl⟩ := hp
  rfl

lemma StateLE.rfl {ctx : SearchCtx} {res : ResultMap} : StateLE ctx res res :=
  fun _ d x z h => ⟨d, x, z, h, le_refl _⟩

lemma StateLE.comp {ctx : SearchCtx} {r1 r2 r3 : ResultMap}
    (h12 : StateLE ctx r1 r2) (h23 : StateLE ctx r2 r3) : StateLE ctx r1 r3 := by
  intro b d x z h1
  obtain ⟨d2, x2, z2, h2, hle2⟩ := h12 b d x z h1
  obtain ⟨d3, x3, z3, h3, hle3⟩ := h23 b d2 x2 z2 h2
  exact ⟨d3, x3, z3, h3, le_trans hle3 hle2⟩

lemma updateBlock_stateLE (ctx : SearchCtx) (chunk_distance : Nat) (res : ResultMap)
    (blk : Block) : StateLE ctx res (updateBlock ctx chunk_distance res blk) := by
  intro b d x z hb
  unfold updateBlock
  by_cases hm : blk.biome ∈ ctx.biomes
  · simp only [hm, if_true]
    cases hcur : res blk.biome with
    | notFound =>
      have hne : b ≠ blk.biome := fun he => by rw [he, hcur] at hb; exact absurd hb (by simp)
      exact ⟨d, x, z, by simp [hne, hb], le_refl _⟩
    | found fcd px pz =>
      by_cases hlt : blockDistance ctx blk < cellDistance ctx.start_x ctx.start_z px pz
      · simp only [hlt, if_true]
        by_cases he : b = blk.biome
        · subst he
          rw [hb] at hcur
          cases hcur
          exact ⟨chunk_distance, blk.x, blk.z, by simp, le_of_lt hlt⟩
        · exact ⟨d, x, z, by simp [he, hb], le_refl _⟩
      · simp only [hlt, if_false]
        exact ⟨d, x, z, hb, le_refl _⟩
  · simp only [hm, if_false]
    exact ⟨d, x, z, hb, le_refl _⟩

lemma updateBlock_change (ctx : SearchCtx) (chunk_distance : Nat) (res : ResultMap)
    (blk : Block) (b : String)
    (hch : updateBlock ctx chunk_distance res blk b ≠ res b) :
    b = blk.biome ∧ blk.biome ∈ ctx.biomes ∧
      (res b = BiomeState.notFound ∨
        ∃ d0 x0 z0, res b = BiomeState.found d0 x0 z0 ∧
          blockDistance ctx blk < cellDistance ctx.start_x ctx.start_z x0 z0) := by
  unfold updateBlock at hch
  by_cases hm : blk.biome ∈ ctx.biomes
  · simp only [hm, if_true] at hch
    cases hcur : res blk.biome with
    | notFound =>
      rw [hcur] at hch
      by_cases he : b = blk.biome
      · exact ⟨he, hm, Or.inl (he ▸ hcur)⟩
      · simp [he] at hch
    | found fcd px pz =>
      rw [hcur] at hch
      by_cases hlt : blockDistance ctx blk < cellDistance ctx.start_x ctx.start_z px pz
      · simp only [hlt, if_true] at hch
        by_cases he : b = blk.biome
        · exact ⟨he, hm, Or.inr ⟨fcd, px, pz, he ▸ hcur, hlt⟩⟩
        · simp [he] at hch
      · simp only [hlt, if_false] at hch
        exact absurd rfl hch
  · simp only [hm, if_false] at hch
    exact absurd rfl hch

lemma scanBlocks_stateLE (ctx : SearchCtx) (chunk_distance : Nat) :
    ∀ (row : List Block) (res res1 : ResultMap),
      scanBlocks ctx chunk_distance row res = Except.ok res1 → StateLE ctx res res1 := by
  intro row
  induction row with
  | nil => intro res res1 h; cases h; exact StateLE.rfl
  | cons blk rest ih =>
    intro res res1 h
    unfold scanBlocks at h
    by_cases hfind : (ctx.catalog.find? fun b => b.name = blk.biome).isSome
    · rw [if_pos hfind] at h
      exact StateLE.comp (updateBlock_stateLE ctx chunk_distance res blk) (ih _ _ h)
    · rw [if_neg hfind] at h
      cases h

lemma scanRows_stateLE (ctx : SearchCtx) (chunk_distance : Nat) :
    ∀ (rows : List (List Block)) (res res1 : ResultMap),
      scanRows ctx chunk_distance rows res = Except.ok res1 → StateLE ctx res res1 := by
  intro rows
  induction rows with
  | nil => intro res res1 h; cases h; exact StateLE.rfl
  | cons row rest ih =>
    intro res res1 h
    unfold scanRows at h
    cases hrow : scanBlocks ctx chunk_distance row res with
    | error e => rw [hrow] at h; cases h
    | ok resMid =>
      rw [hrow] at h
      exact StateLE.comp (scanBlocks_stateLE ctx chunk_distance row res resMid hrow)
        (ih _ _ h)

lemma searchChunks_stateLE (ctx : SearchCtx) :
    ∀ (chunks : List (Nat × Chunk)) (res res1 : ResultMap),
      searchChunks ctx chunks res = Except.ok res1 → StateLE ctx res res1 := by
  intro chunks
  induction chunks with
  | nil => intro res res1 h; cases h; exact StateLE.rfl
  | cons p rest ih =>
    intro res res1 h
    unfold searchChunks at h
    by_cases hstop : stop_condition ctx res p.1
    · rw [if_pos hstop] at h; cases h; exact StateLE.rfl
    · rw [if_neg hstop] at h
      cases hrows : scanRows ctx p.1 (ctx.world p.2.x p.2.z) res with
      | error e => rw [hrows] at h; cases h
      | ok resMid =>
        rw [hrows] at h
        exact StateLE.comp (scanRows_stateLE ctx p.1 _ res resMid hrows) (ih _ _ h)

lemma block_chunk_bounds (ctx : SearchCtx) (c : Chunk) (blk : Block)
    (hx : Int.fdiv blk.x 16 = c.x) (hz : Int.fdiv blk.z 16 = c.z) :
    blockDistance ctx blk ≤
        16 * chunkDistance (Int.fdiv ctx.start_x 16) (Int.fdiv ctx.start_z 16) c + 30 ∧
      16 * chunkDistance (Int.fdiv ctx.start_x 16) (Int.fdiv ctx.start_z 16) c ≤
        blockDistance ctx blk + 30 := by
  unfold blockDistance cellDistance chunkDistance
  rw [← hx, ← hz]
  rw [Int.fdiv_eq_ediv _ (by norm_num), Int.fdiv_eq_ediv _ (by norm_num),
    Int.fdiv_eq_ediv _ (by norm_num), Int.fdiv_eq_ediv _ (by norm_num)]
  constructor <;> omega

lemma stop_condition_iff (ctx : SearchCtx) (res : ResultMap) (d : Nat) :
    stop_condition ctx res d = true ↔
      ∀ b ∈ ctx.biomes, ∃ fcd x z, res b = BiomeState.found fcd x z ∧ fcd + 3 < d := by
  unfold stop_condition
  rw [List.all_eq_true]
  constructor
  · intro h b hb
    have hball := h b hb
    cases hcur : res b with
    | notFound => rw [hcur] at hball; simp at hball
    | found fcd x z =>
      rw [hcur] at hball
      exact ⟨fcd, x, z, rfl, by simpa using hball⟩
  · intro h b hb
    obtain ⟨fcd, x, z, hq, hlt⟩ := h b hb
    rw [hq]
    simpa using hlt

lemma updateBlock_cases (ctx : SearchCtx) (cd : Nat) (res : ResultMap) (blk : Block)
    (b : String) :
    updateBlock ctx cd res blk b = res b ∨
      (updateBlock ctx cd res blk b = BiomeState.found cd blk.x blk.z ∧
        b = blk.biome ∧ blk.biome ∈ ctx.biomes) := by
  unfold updateBlock
  by_cases hm : blk.biome ∈ ctx.biomes
  · rw [if_pos hm]
    cases hcur : res blk.biome with
    | notFound =>
      by_cases he : b = blk.biome
      · exact Or.inr ⟨by simp [he], he, hm⟩
      · exact Or.inl (by simp [he])
    | found fcd px pz =>
      dsimp only
      by_cases hlt : blockDistance ctx blk < cellDistance ctx.start_x ctx.start_z px pz
      · rw [if_pos hlt]
        by_cases he : b = blk.biome
        · exact Or.inr ⟨by simp [he], he, hm⟩
        · exact Or.inl (by simp [he])
      · rw [if_neg hlt]
        exact Or.inl rfl
  · rw [if_neg hm]
    exact Or.inl rfl

lemma updateBlock_invDist (ctx : SearchCtx) (cd : Nat) (res : ResultMap) (blk : Block)
    (hblk : blockDistance ctx blk ≤ 16 * cd + 30) (hres : InvDist ctx res) :
    InvDist ctx (updateBlock ctx cd res blk) := by
  intro b d x z hb
  rcases updateBlock_cases ctx cd res blk b with heq | ⟨heq, _, _⟩
  · rw [heq] at hb
    exact hres b d x z hb
  · rw [heq] at hb
    cases hb
    exact hblk

lemma scanBlocks_invDist (ctx : SearchCtx) (cd : Nat) :
    ∀ (row : List Block) (res res1 : ResultMap),
      (∀ blk ∈ row, blockDistance ctx blk ≤ 16 * cd + 30) →
      InvDist ctx res → scanBlocks ctx cd row res = Except.ok res1 → InvDist ctx res1 := by
  intro row
  induction row with
  | nil => intro res res1 _ hres h; cases h; exact hres
  | cons blk rest ih =>
    intro res res1 hrow hres h
    unfold scanBlocks at h
    by_cases hfind : (ctx.catalog.find? fun b => b.name = blk.biome).isSome
    · rw [if_pos hfind] at h
      exact ih _ _ (fun b hb => hrow b (List.mem_cons_of_mem _ hb))
        (updateBlock_invDist ctx cd res blk (hrow blk (List.mem_cons_self _ _)) hres) h
    · rw [if_neg hfind] at h
      cases h

lemma scanRows_invDist (ctx : SearchCtx) (cd : Nat) :
    ∀ (rows : List (List Block)) (res res1 : ResultMap),
      (∀ row ∈ rows, ∀ blk ∈ row, blockDistance ctx blk ≤ 16 * cd + 30) →
      InvDist ctx res → scanRows ctx cd rows res = Except.ok res1 → InvDist ctx res1 := by
  intro rows
  induction rows with
  | nil => intro res res1 _ hres h; cases h; exact hres
  | cons row rest ih =>
    intro res res1 hrows hres h
    unfold scanRows at h
    cases hrow : scanBlocks ctx cd row res with
    | error e => rw [hrow] at h; cases h
    | ok resMid =>
      rw [hrow] at h
      exact ih _ _ (fun r hr => hrows r (List.mem_cons_of_mem _ hr))
        (scanBlocks_invDist ctx cd row res resMid
          (hrows row (List.mem_cons_self _ _)) hres hrow) h

lemma updateBlock_keep (ctx : SearchCtx) (cd : Nat) (res : ResultMap) (blk : Block)
    (h : blk.biome ∈ ctx.biomes →
      ∃ d0 x0 z0, res blk.biome = BiomeState.found d0 x0 z0 ∧
        cellDistance ctx.start_x ctx.start_z x0 z0 ≤ blockDistance ctx blk) :
    updateBlock ctx cd res blk = res := by
  unfold updateBlock
  by_cases hm : blk.biome ∈ ctx.biomes
  · obtain ⟨d0, x0, z0, hcur, hge⟩ := h hm
    simp only [hm, if_true, hcur]
    rw [if_neg (Nat.not_lt.mpr hge)]
  · simp only [hm, if_false]

lemma scanBlocks_noop (ctx : SearchCtx) (cd : Nat) :
    ∀ (row : List Block) (res : ResultMap),
      (∀ blk ∈ row, (ctx.catalog.find? fun b => b.name = blk.biome).isSome = true) →
      (∀ blk ∈ row, updateBlock ctx cd res blk = res) →
      scanBlocks ctx cd row res = Except.ok res := by
  intro row
  induction row with
  | nil => intro res _ _; rfl
  | cons blk rest ih =>
    intro res hv hkeep
    unfold scanBlocks
    rw [if_pos (hv blk (List.mem_cons_self _ _)), hkeep blk (List.mem_cons_self _ _)]
    exact ih res (fun b hb => hv b (List.mem_cons_of_mem _ hb))
      (fun b hb => hkeep b (List.mem_cons_of_mem _ hb))

lemma scanRows_noop (ctx : SearchCtx) (cd : Nat) :
    ∀ (rows : List (List Block)) (res : ResultMap),
      (∀ row ∈ rows, ∀ blk ∈ row, (ctx.catalog.find? fun b => b.name = blk.biome).isSome = true) →
      (∀ row ∈ rows, ∀ blk ∈ row, updateBlock ctx cd res blk = res) →
      scanRows ctx cd rows res = Except.ok res := by
  intro rows
  induction rows with
  | nil => intro res _ _; rfl
  | cons row rest ih =>
    intro res hv hkeep
    unfold scanRows
    rw [scanBlocks_noop ctx cd row res (hv row (List.mem_cons_self _ _))
      (hkeep row (List.mem_cons_self _ _))]
    exact ih res (fun r hr => hv r (List.mem_cons_of_mem _ hr))
      (fun r hr => hkeep r (List.mem_cons_of_mem _ hr))

lemma scanRows_noop_far (ctx : SearchCtx) (cd : Nat) (c : Chunk) (res : ResultMap)
    (hwf : chunkWellFormed ctx.world c)
    (hvalid : chunkValid ctx.catalog ctx.world c)
    (hinv : InvDist ctx res)
    (hstop : ∀ b ∈ ctx.biomes, ∃ fcd x z, res b = BiomeState.found fcd x z ∧
      fcd + 4 ≤ chunkDistance (Int.fdiv ctx.start_x 16) (Int.fdiv ctx.start_z 16) c) :
    scanRows ctx cd (ctx.world c.x c.z) res = Except.ok res := by
  refine scanRows_noop ctx cd _ res hvalid ?_
  intro row hrow blk hblk
  refine updateBlock_keep ctx cd res blk ?_
  intro hm
  obtain ⟨fcd, x, z, hcur, hfar⟩ := hstop blk.biome hm
  refine ⟨fcd, x, z, hcur, ?_⟩
  have hstored := hinv blk.biome fcd x z hcur
  have hgeom := (block_chunk_bounds ctx c blk ((hwf row hrow blk hblk).1)
    ((hwf row hrow blk hblk).2)).2
  omega

lemma exhaustiveChunks_noop (ctx : SearchCtx) :
    ∀ (chunks : List (Nat × Chunk)) (res : ResultMap),
      (∀ p ∈ chunks, chunkWellFormed ctx.world p.2 ∧ chunkValid ctx.catalog ctx.world p.2 ∧
        p.1 = chunkDistance (Int.fdiv ctx.start_x 16) (Int.fdiv ctx.start_z 16) p.2) →
      InvDist ctx res →
      (∀ p ∈ chunks, ∀ b ∈ ctx.biomes,
        ∃ fcd x z, res b = BiomeState.found fcd x z ∧ fcd + 4 ≤ p.1) →
      exhaustiveChunks ctx chunks res = Except.ok res := by
  intro chunks
  induction chunks with
  | nil => intro res _ _ _; rfl
  | cons p rest ih =>
    intro res hck hinv hfar
    obtain ⟨hwf, hvalid, hdist⟩ := hck p (List.mem_cons_self _ _)
    have hrows : scanRows ctx p.1 (ctx.world p.2.x p.2.z) res = Except.ok res := by
      refine scanRows_noop_far ctx p.1 p.2 res hwf hvalid hinv ?_
      intro b hb
      obtain ⟨fcd, x, z, hcur, hle⟩ := hfar p (List.mem_cons_self _ _) b hb
      exact ⟨fcd, x, z, hcur, by omega⟩
    cases p with
    | mk d c =>
      unfold exhaustiveChunks
      rw [hrows]
      exact ih res (fun q hq => hck q (List.mem_cons_of_mem _ hq)) hinv
        (fun q hq => hfar q (List.mem_cons_of_mem _ hq))

lemma searchChunks_eq_exhaustive (ctx : SearchCtx) :
    ∀ (chunks : List (Nat × Chunk)) (res : ResultMap),
      chunks.Pairwise (fun p q => p.1 ≤ q.1) →
      (∀ p ∈ chunks, chunkWellFormed ctx.world p.2 ∧ chunkValid ctx.catalog ctx.world p.2 ∧
        p.1 = chunkDistance (Int.fdiv ctx.start_x 16) (Int.fdiv ctx.start_z 16) p.2) →
      InvDist ctx res →
      searchChunks ctx chunks res = exhaustiveChunks ctx chunks res := by
  intro chunks
  induction chunks with
  | nil => intro res _ _ _; rfl
  | cons p rest ih =>
    intro res hsorted hck hinv
    obtain ⟨hwf, hvalid, hdist⟩ := hck p (List.mem_cons_self _ _)
    rw [List.pairwise_cons] at hsorted
    obtain ⟨hhead, hrest⟩ := hsorted
    cases p with
    | mk d c =>
      by_cases hstop : stop_condition ctx res d
      · have hfound := (stop_condition_iff ctx res d).mp hstop
        have hrows : scanRows ctx d (ctx.world c.x c.z) res = Except.ok res := by
          refine scanRows_noop_far ctx d c res hwf hvalid hinv ?_
          intro b hb
          obtain ⟨fcd, x, z, hcur, hlt⟩ := hfound b hb
          exact ⟨fcd, x, z, hcur, by simp only at hdist; omega⟩
        have hrest_noop : exhaustiveChunks ctx rest res = Except.ok res := by
          refine exhaustiveChunks_noop ctx rest res
            (fun q hq => hck q (List.mem_cons_of_mem _ hq)) hinv ?_
          intro q hq b hb
          obtain ⟨fcd, x, z, hcur, hlt⟩ := hfound b hb
          have hq1 := hhead q hq
          exact ⟨fcd, x, z, hcur, by simp only at hq1; omega⟩
        unfold searchChunks exhaustiveChunks
        rw [if_pos hstop, hrows]
        exact hrest_noop.symm
      · unfold searchChunks exhaustiveChunks
        rw [if_neg hstop]
        cases hrows : scanRows ctx d (ctx.world c.x c.z) res with
        | error e => rfl
        | ok res1 =>
          have hbound : ∀ row ∈ ctx.world c.x c.z, ∀ blk ∈ row,
              blockDistance ctx blk ≤ 16 * d + 30 := by
            intro row hrow blk hblk
            have hgeom := (block_chunk_bounds ctx c blk ((hwf row hrow blk hblk).1)
              ((hwf row hrow blk hblk).2)).1
            simp only at hdist
            omega
          exact ih res1 hrest (fun q hq => hck q (List.mem_cons_of_mem _ hq))
            (scanRows_invDist ctx d _ res res1 hbound hinv hrows)

lemma updateBlock_sound (ctx : SearchCtx) (overworld : List Chunk) (cd : Nat)
    (res : ResultMap) (blk : Block)
    (hblk : ∃ c, isInstanceOf ctx.world overworld blk.biome c blk)
    (hres : SoundRes ctx overworld res) :
    SoundRes ctx overworld (updateBlock ctx cd res blk) := by
  intro b d x z hb
  rcases updateBlock_cases ctx cd res blk b with heq | ⟨heq, hbe, _⟩
  · rw [heq] at hb
    exact hres b d x z hb
  · subst hbe
    rw [heq] at hb
    cases hb
    obtain ⟨c, hc⟩ := hblk
    exact ⟨c, blk, hc, rfl, rfl⟩

lemma scanBlocks_sound (ctx : SearchCtx) (overworld : List Chunk) (cd : Nat) :
    ∀ (row : List Block) (res res1 : ResultMap),
      (∀ blk ∈ row, ∃ c, isInstanceOf ctx.world overworld blk.biome c blk) →
      SoundRes ctx overworld res →
      scanBlocks ctx cd row res = Except.ok res1 → SoundRes ctx overworld res1 := by
  intro row
  induction row with
  | nil => intro res res1 _ hres h; cases h; exact hres
  | cons blk rest ih =>
    intro res res1 hrow hres h
    unfold scanBlocks at h
    by_cases hfind : (ctx.catalog.find? fun b => b.name = blk.biome).isSome
    · rw [if_pos hfind] at h
      exact ih _ _ (fun b hb => hrow b (List.mem_cons_of_mem _ hb))
        (updateBlock_sound ctx overworld cd res blk (hrow blk (List.mem_cons_self _ _)) hres) h
    · rw [if_neg hfind] at h
      cases h

lemma scanRows_sound (ctx : SearchCtx) (overworld : List Chunk) (cd : Nat) :
    ∀ (rows : List (List Block)) (res res1 : ResultMap),
      (∀ row ∈ rows, ∀ blk ∈ row, ∃ c, isInstanceOf ctx.world overworld blk.biome c blk) →
      SoundRes ctx overworld res →
      scanRows ctx cd rows res = Except.ok res1 → SoundRes ctx overworld res1 := by
  intro rows
  induction rows with
  | nil => intro res res1 _ hres h; cases h; exact hres
  | cons row rest ih =>
    intro res res1 hrows hres h
    unfold scanRows at h
    cases hrow : scanBlocks ctx cd row res with
    | error e => rw [hrow] at h; cases h
    | ok resMid =>
      rw [hrow] at h
      exact ih _ _ (fun r hr => hrows r (List.mem_cons_of_mem _ hr))
        (scanBlocks_sound ctx overworld cd row res resMid
          (hrows row (List.mem_cons_self _ _)) hres hrow) h

lemma searchChunks_sound (ctx : SearchCtx) (overworld : List Chunk) :
    ∀ (chunks : List (Nat × Chunk)) (res res1 : ResultMap),
      (∀ p ∈ chunks, p.2 ∈ overworld) →
      SoundRes ctx overworld res →
      searchChunks ctx chunks res = Except.ok res1 → SoundRes ctx overworld res1 := by
  intro chunks
  induction chunks with
  | nil => intro res res1 _ hres h; cases h; exact hres
  | cons p rest ih =>
    intro res res1 hmem hres h
    unfold searchChunks at h
    by_cases hstop : stop_condition ctx res p.1
    · rw [if_pos hstop] at h; cases h; exact hres
    · rw [if_neg hstop] at h
      cases hrows : scanRows ctx p.1 (ctx.world p.2.x p.2.z) res with
      | error e => rw [hrows] at h; cases h
      | ok resMid =>
        rw [hrows] at h
        refine ih _ _ (fun q hq => hmem q (List.mem_cons_of_mem _ hq)) ?_ h
        refine scanRows_sound ctx overworld p.1 _ res resMid ?_ hres hrows
        intro row hrow blk hblk
        exact ⟨p.2, hmem p (List.mem_cons_self _ _), row, hrow, hblk, rfl⟩

lemma searchChunksTrace_fst (ctx : SearchCtx) :
    ∀ (chunks : List (Nat × Chunk)) (res r : ResultMap) (n : Nat),
      searchChunksTrace ctx chunks res = Except.ok (r, n) →
      searchChunks ctx chunks res = Except.ok r := by
  intro chunks
  induction chunks with
  | nil => intro res r n h; cases h; rfl
  | cons p rest ih =>
    intro res r n h
    cases p with
    | mk d c =>
      unfold searchChunksTrace at h
      unfold searchChunks
      by_cases hstop : stop_condition ctx res d
      · rw [if_pos hstop] at h
        cases h
        rw [if_pos hstop]
      · rw [if_neg hstop] at h
        rw [if_neg hstop]
        revert h
        cases hrows : scanRows ctx d (ctx.world c.x c.z) res with
        | error e => intro h; dsimp only at h; cases h
        | ok resMid =>
          intro h
          dsimp only at h ⊢
          revert h
          cases htr : searchChunksTrace ctx rest resMid with
          | error e => intro h; dsimp only at h; cases h
          | ok pr =>
            intro h
            cases pr with
            | mk r1 n1 =>
              dsimp only at h
              injection h with h2
              injection h2 with hr hn
              subst hr
              exact ih resMid r1 n1 htr

lemma scanBlocks_ok_of_valid (ctx : SearchCtx) (cd : Nat) :
    ∀ (row : List Block) (res : ResultMap),
      (∀ blk ∈ row, (ctx.catalog.find? fun b => b.name = blk.biome).isSome = true) →
      ∃ res1, scanBlocks ctx cd row res = Except.ok res1 := by
  intro row
  induction row with
  | nil => intro res _; exact ⟨res, rfl⟩
  | cons blk rest ih =>
    intro res hv
    obtain ⟨res1, h1⟩ := ih (updateBlock ctx cd res blk)
      (fun b hb => hv b (List.mem_cons_of_mem _ hb))
    refine ⟨res1, ?_⟩
    unfold scanBlocks
    rw [if_pos (hv blk (List.mem_cons_self _ _))]
    exact h1

lemma scanRows_ok_of_valid (ctx : SearchCtx) (cd : Nat) :
    ∀ (rows : List (List Block)) (res : ResultMap),
      (∀ row ∈ rows, ∀ blk ∈ row, (ctx.catalog.find? fun b => b.name = blk.biome).isSome = true) →
      ∃ res1, scanRows ctx cd rows res = Except.ok res1 := by
  intro rows
  induction rows with
  | nil => intro res _; exact ⟨res, rfl⟩
  | cons row rest ih =>
    intro res hv
    obtain ⟨resMid, hmid⟩ := scanBlocks_ok_of_valid ctx cd row res
      (hv row (List.mem_cons_self _ _))
    obtain ⟨res1, h1⟩ := ih resMid (fun r hr => hv r (List.mem_cons_of_mem _ hr))
    refine ⟨res1, ?_⟩
    unfold scanRows
    rw [hmid]
    exact h1

lemma scanBlocks_preserve_notFound (ctx : SearchCtx) (cd : Nat) (b : String) :
    ∀ (row : List Block) (res res1 : ResultMap),
      scanBlocks ctx cd row res = Except.ok res1 →
      (∀ blk ∈ row, blk.biome ≠ b) →
      res b = BiomeState.notFound → res1 b = BiomeState.notFound := by
  intro row
  induction row with
  | nil => intro res res1 h _ hnf; cases h; exact hnf
  | cons blk rest ih =>
    intro res res1 h hne hnf
    unfold scanBlocks at h
    by_cases hfind : (ctx.catalog.find? fun q => q.name = blk.biome).isSome
    · rw [if_pos hfind] at h
      refine ih _ _ h (fun q hq => hne q (List.mem_cons_of_mem _ hq)) ?_
      rcases updateBlock_cases ctx cd res blk b with heq | ⟨_, hbe, _⟩
      · rw [heq]; exact hnf
      · exact absurd hbe.symm (hne blk (List.mem_cons_self _ _))
    · rw [if_neg hfind] at h
      cases h

lemma scanRows_preserve_notFound (ctx : SearchCtx) (cd : Nat) (b : String) :
    ∀ (rows : List (List Block)) (res res1 : ResultMap),
      scanRows ctx cd rows res = Except.ok res1 →
      (∀ row ∈ rows, ∀ blk ∈ row, blk.biome ≠ b) →
      res b = BiomeState.notFound → res1 b = BiomeState.notFound := by
  intro rows
  induction rows with
  | nil => intro res res1 h _ hnf; cases h; exact hnf
  | cons row rest ih =>
    intro res res1 h hne hnf
    unfold scanRows at h
    cases hrow : scanBlocks ctx cd row res with
    | error e => rw [hrow] at h; cases h
    | ok resMid =>
      rw [hrow] at h
      exact ih _ _ h (fun r hr => hne r (List.mem_cons_of_mem _ hr))
        (scanBlocks_preserve_notFound ctx cd b row res resMid hrow
          (hne row (List.mem_cons_self _ _)) hnf)

lemma stop_false_of_notFound (ctx : SearchCtx) (res : ResultMap) (d : Nat) (b : String)
    (hb : b ∈ ctx.biomes) (hnf : res b = BiomeState.notFound) :
    stop_condition ctx res d = false := by
  cases hsc : stop_condition ctx res d
  · rfl
  · obtain ⟨fcd, x, z, hfound, _⟩ := (stop_condition_iff ctx res d).mp hsc b hb
    rw [hnf] at hfound
    exact BiomeState.noConfusion hfound

lemma trace_absent (ctx : SearchCtx) (b : String) (hb : b ∈ ctx.biomes) :
    ∀ (chunks : List (Nat × Chunk)) (res : ResultMap),
      (∀ p ∈ chunks, chunkValid ctx.catalog ctx.world p.2) →
      (∀ p ∈ chunks, ∀ row ∈ ctx.world p.2.x p.2.z, ∀ blk ∈ row, blk.biome ≠ b) →
      res b = BiomeState.notFound →
      ∃ res1, searchChunksTrace ctx chunks res = Except.ok (res1, chunks.length) ∧
        res1 b = BiomeState.notFound := by
  intro chunks
  induction chunks with
  | nil => intro res _ _ hnf; exact ⟨res, rfl, hnf⟩
  | cons p rest ih =>
    intro res hv hne hnf
    have hsc := stop_false_of_notFound ctx res p.1 b hb hnf
    obtain ⟨resMid, hmid⟩ := scanRows_ok_of_valid ctx p.1 (ctx.world p.2.x p.2.z) res
      (hv p (List.mem_cons_self _ _))
    have hnfMid := scanRows_preserve_notFound ctx p.1 b _ res resMid hmid
      (hne p (List.mem_cons_self _ _)) hnf
    obtain ⟨res1, htr, hnf1⟩ := ih resMid (fun q hq => hv q (List.mem_cons_of_mem _ hq))
      (fun q hq => hne q (List.mem_cons_of_mem _ hq)) hnfMid
    refine ⟨res1, ?_, hnf1⟩
    cases p with
    | mk d c =>
      unfold searchChunksTrace
      rw [if_neg (by simp [hsc]), hmid]
      dsimp only
      rw [htr]
      exact rfl

lemma trace_characterize (ctx : SearchCtx) :
    ∀ (chunks : List (Nat × Chunk)) (res : ResultMap),
      (∀ p ∈ chunks, chunkValid ctx.catalog ctx.world p.2) →
      ∃ resn n, searchChunksTrace ctx chunks res = Except.ok (resn, n) ∧
        n ≤ chunks.length ∧
        exhaustiveChunks ctx (chunks.take n) res = Except.ok resn ∧
        (∀ i, i < n → ∃ resi, exhaustiveChunks ctx (chunks.take i) res = Except.ok resi ∧
          stop_condition ctx resi (chunks.getD i (0, Chunk.mk 0 0)).1 = false) ∧
        (n < chunks.length →
          stop_condition ctx resn (chunks.getD n (0, Chunk.mk 0 0)).1 = true) := by
  intro chunks
  induction chunks with
  | nil =>
    intro res _
    exact ⟨res, 0, rfl, Nat.le_refl 0, rfl,
      fun i hi => absurd hi (Nat.not_lt_zero i), fun h => absurd h (Nat.not_lt_zero 0)⟩
  | cons p rest ih =>
    intro res hv
    cases p with
    | mk d c =>
      by_cases hstop : stop_condition ctx res d
      · refine ⟨res, 0, ?_, Nat.zero_le _, rfl,
          fun i hi => absurd hi (Nat.not_lt_zero i), fun _ => ?_⟩
        · unfold searchChunksTrace
          rw [if_pos hstop]
        · simpa using hstop
      · obtain ⟨resMid, hmid⟩ := scanRows_ok_of_valid ctx d (ctx.world c.x c.z) res
          (hv (d, c) (List.mem_cons_self _ _))
        obtain ⟨resn, n, htr, hle, hex, hprev, hstopn⟩ :=
          ih resMid (fun q hq => hv q (List.mem_cons_of_mem _ hq))
        refine ⟨resn, n + 1, ?_, Nat.succ_le_succ hle, ?_, ?_, ?_⟩
        · unfold searchChunksTrace
          rw [if_neg hstop, hmid]
          dsimp only
          rw [htr]
        · rw [List.take_succ_cons]
          unfold exhaustiveChunks
          rw [hmid]
          exact hex
        · intro i hi
          cases i with
          | zero =>
            refine ⟨res, rfl, ?_⟩
            simpa using hstop
          | succ j =>
            obtain ⟨resi, hexi, hsci⟩ := hprev j (Nat.lt_of_succ_lt_succ hi)
            refine ⟨resi, ?_, ?_⟩
            · rw [List.take_succ_cons]
              unfold exhaustiveChunks
              rw [hmid]
              exact hexi
            · simpa using hsci
        · intro hlt
          have hlt2 : n < rest.length := Nat.lt_of_succ_lt_succ (by simpa using hlt)
          simpa using hstopn hlt2

lemma get_world_cached (world_arg : Option String) (net : Net) (st st1 : RunState)
    (w : String) (h : get_world world_arg net st = Except.ok (w, st1)) (n : Nat) :
    get_world world_arg net (RunState.mk st1.cache n) =
      Except.ok (w, RunState.mk st1.cache n) := by
  cases world_arg with
  | some w' =>
    unfold get_world at h ⊢
    simp only [Except.ok.injEq, Prod.mk.injEq] at h
    obtain ⟨rfl, rfl⟩ := h
    rfl
  | none =>
    unfold get_world at h ⊢
    cases hw : st.cache.world with
    | some w0 =>
      rw [hw] at h
      simp only [Except.ok.injEq, Prod.mk.injEq] at h
      obtain ⟨rfl, rfl⟩ := h
      dsimp only
      rw [hw]
    | none =>
      rw [hw] at h
      cases hone : one? ((net.worlds.filter fun p => p.2).map Prod.fst) with
      | none => rw [hone] at h; cases h
      | some w0 =>
        rw [hone] at h
        simp only [Except.ok.injEq, Prod.mk.injEq] at h
        obtain ⟨rfl, rfl⟩ := h
        rfl

/-- C3: tiles emitted by the grid index builder are non-decreasing in tile
distance, and every emitted pair carries exactly the Manhattan tile distance
`|tileX - floor(startX/16)| + |tileZ - floor(startZ/16)|` of its tile from
the start tile — for every overview tile set and all integer (including
negative) start coordinates. -/
theorem c3_sorted_by_tile_distance (overworld : List Chunk) (start_x start_z : Int) :
    (all_chunks_sorted_by_distance overworld start_x start_z).Pairwise
        (fun p q => p.1 ≤ q.1) ∧
      ∀ p ∈ all_chunks_sorted_by_distance overworld start_x start_z,
        p.1 = chunkDistance (Int.fdiv start_x 16) (Int.fdiv start_z 16) p.2 := by
  refine ⟨all_chunks_sorted_pairwise overworld start_x start_z, ?_⟩
  exact fun p hp => (mem_all_chunks_sorted hp).2

/-- C3, instantiated: the ordering property evaluated on a concrete overview
with a negative start coordinate. -/
theorem c3_sorted_by_tile_distance_witness :
    (all_chunks_sorted_by_distance [⟨3, -2⟩, ⟨0, 0⟩, ⟨-1, 5⟩] (-5) 7).Pairwise
        (fun p q => p.1 ≤ q.1) ∧
      ∀ p ∈ all_chunks_sorted_by_distance [⟨3, -2⟩, ⟨0, 0⟩, ⟨-1, 5⟩] (-5) 7,
        p.1 = chunkDistance (Int.fdiv (-5) 16) (Int.fdiv 7 16) p.2 :=
  c3_sorted_by_tile_distance [⟨3, -2⟩, ⟨0, 0⟩, ⟨-1, 5⟩] (-5) 7

/-- C1: early-stop soundness for L=16 and bound 3. For every dataset whose
cells lie inside their tiles and carry catalog biomes, and in which each
requested biome has a nearest instance such that every other instance of
that biome lies at tile distance more than 3 beyond that instance's tile
distance, the search with the early-stop test returns exactly the result of
the exhaustive scan of the entire tile sequence (same per-biome coordinate
and distance). The proof in fact never uses the dataset-shape hypothesis:
the early stop is sound for every well-formed dataset. -/
theorem c1_early_stop_soundness (ctx : SearchCtx) (overworld : List Chunk)
    (hwf : ∀ c ∈ overworld, chunkWellFormed ctx.world c)
    (hvalid : ∀ c ∈ overworld, chunkValid ctx.catalog ctx.world c)
    (_hdataset : ∀ b ∈ ctx.biomes, ∃ c0 blk0, isInstanceOf ctx.world overworld b c0 blk0 ∧
      ∀ c blk, isInstanceOf ctx.world overworld b c blk → (c = c0 ∧ blk = blk0) ∨
        chunkDistance (Int.fdiv ctx.start_x 16) (Int.fdiv ctx.start_z 16) c0 + 3 <
          chunkDistance (Int.fdiv ctx.start_x 16) (Int.fdiv ctx.start_z 16) c) :
    get_closest_coords ctx overworld = exhaustive_scan ctx overworld := by
  unfold get_closest_coords exhaustive_scan chunkSeq
  refine searchChunks_eq_exhaustive ctx _ initResult
    (all_chunks_sorted_pairwise overworld ctx.start_x ctx.start_z) ?_ ?_
  · intro p hp
    obtain ⟨hmem, hdist⟩ := mem_all_chunks_sorted hp
    exact ⟨hwf p.2 hmem, hvalid p.2 hmem, hdist⟩
  · intro b d x z h
    exact BiomeState.noConfusion h

/-- C1, instantiated: the concrete plains dataset (single plains cell in the
origin tile, all other instances absent; the second tile is 5 > 0 + 3 tile
distances away) satisfies the hypotheses, and the early-stop search agrees
with the exhaustive scan on it. -/
theorem c1_early_stop_soundness_witness :
    (∀ c ∈ overworldW, chunkWellFormed ctx1W.world c) ∧
      (∀ c ∈ overworldW, chunkValid ctx1W.catalog ctx1W.world c) ∧
      (∀ b ∈ ctx1W.biomes, ∃ c0 blk0, isInstanceOf ctx1W.world overworldW b c0 blk0 ∧
        ∀ c blk, isInstanceOf ctx1W.world overworldW b c blk → (c = c0 ∧ blk = blk0) ∨
          chunkDistance (Int.fdiv ctx1W.start_x 16) (Int.fdiv ctx1W.start_z 16) c0 + 3 <
            chunkDistance (Int.fdiv ctx1W.start_x 16) (Int.fdiv ctx1W.start_z 16) c) ∧
      get_closest_coords ctx1W overworldW = exhaustive_scan ctx1W overworldW := by
  have h1 : ∀ c ∈ overworldW, chunkWellFormed ctx1W.world c := by decide
  have h2 : ∀ c ∈ overworldW, chunkValid ctx1W.catalog ctx1W.world c := by decide
  have h3 : ∀ b ∈ ctx1W.biomes, ∃ c0 blk0, isInstanceOf ctx1W.world overworldW b c0 blk0 ∧
      ∀ c blk, isInstanceOf ctx1W.world overworldW b c blk → (c = c0 ∧ blk = blk0) ∨
        chunkDistance (Int.fdiv ctx1W.start_x 16) (Int.fdiv ctx1W.start_z 16) c0 + 3 <
          chunkDistance (Int.fdiv ctx1W.start_x 16) (Int.fdiv ctx1W.start_z 16) c := by
    intro b hb
    have hb1 : b = "plains" := by simpa [ctx1W] using hb
    subst hb1
    refine ⟨Chunk.mk 0 0, Block.mk 1 2 "plains", ⟨?_, ?_⟩, ?_⟩
    · simp [overworldW]
    · exact ⟨[Block.mk 1 2 "plains"], by simp [ctx1W, worldW], by simp, rfl⟩
    · rintro c blk ⟨hc, row, hrow, hblk, hbio⟩
      simp only [overworldW, List.mem_cons, List.not_mem_nil, or_false] at hc
      rcases hc with rfl | rfl
      · have hrow2 : row = [Block.mk 1 2 "plains"] := by
          simpa [ctx1W, worldW] using hrow
        subst hrow2
        simp only [List.mem_singleton] at hblk
        exact Or.inl ⟨rfl, hblk⟩
      · exfalso
        have hrow2 : row = [Block.mk (16 * 0) (16 * 5) "ocean"] := by
          simpa [ctx1W, worldW] using hrow
        subst hrow2
        simp only [List.mem_singleton] at hblk
        subst hblk
        exact absurd hbio (by simp)
  exact ⟨h1, h2, h3, c1_early_stop_soundness ctx1W overworldW h1 h2 h3⟩

/-- C2 (amended): the tile scan stops early exactly at the first tile for
which the source's test holds — every requested biome (not merely those with
a found match) has a found match and the tile's distance strictly exceeds
that biome's recorded found tile distance plus 3. The scan fetches exactly
the first `n` tiles, its result is the state after unconditionally scanning
those `n` tiles, the test evaluated before each fetched tile's grid was
false, and if the scan stopped early the test at the stopping tile —
evaluated before that tile's cell grid is fetched — is true. -/
theorem c2_early_stop_exactness (ctx : SearchCtx) (overworld : List Chunk)
    (hvalid : ∀ c ∈ overworld, chunkValid ctx.catalog ctx.world c) :
    ∃ resn n, searchChunksTrace ctx (chunkSeq ctx overworld) initResult =
        Except.ok (resn, n) ∧
      n ≤ (chunkSeq ctx overworld).length ∧
      exhaustiveChunks ctx ((chunkSeq ctx overworld).take n) initResult = Except.ok resn ∧
      (∀ i, i < n →
        ∃ resi, exhaustiveChunks ctx ((chunkSeq ctx overworld).take i) initResult =
            Except.ok resi ∧
          stop_condition ctx resi ((chunkSeq ctx overworld).getD i (0, Chunk.mk 0 0)).1 =
            false) ∧
      (n < (chunkSeq ctx overworld).length →
        stop_condition ctx resn ((chunkSeq ctx overworld).getD n (0, Chunk.mk 0 0)).1 =
          true) :=
  trace_characterize ctx (chunkSeq ctx overworld) initResult
    (fun p hp => hvalid p.2 (mem_all_chunks_sorted hp).1)

/-- C2 (amended), instantiated on the concrete two-biome search. -/
theorem c2_early_stop_exactness_witness :
    ∃ resn n, searchChunksTrace ctx2W (chunkSeq ctx2W overworldW) initResult =
        Except.ok (resn, n) ∧
      n ≤ (chunkSeq ctx2W overworldW).length ∧
      exhaustiveChunks ctx2W ((chunkSeq ctx2W overworldW).take n) initResult =
        Except.ok resn ∧
      (∀ i, i < n →
        ∃ resi, exhaustiveChunks ctx2W ((chunkSeq ctx2W overworldW).take i) initResult =
            Except.ok resi ∧
          stop_condition ctx2W resi ((chunkSeq ctx2W overworldW).getD i (0, Chunk.mk 0 0)).1 =
            false) ∧
      (n < (chunkSeq ctx2W overworldW).length →
        stop_condition ctx2W resn ((chunkSeq ctx2W overworldW).getD n (0, Chunk.mk 0 0)).1 =
          true) :=
  c2_early_stop_exactness ctx2W overworldW (by decide)

/-- C2, counterexample to the claim as stated: in the concrete dataset
plains is found in the first tile (tile distance 0) and desert is requested
but absent. At the second tile (tile distance 5 > 0 + 3) the claim's stop
test — quantifying only over biomes that currently have a found match — is
true before the fetch, so the claim says the scan stops there; but the
code's scan does not stop: it fetches both tiles of the sequence (count 2 =
whole sequence, no early stop), because its `all` requires every requested
biome, desert included, to have a found match. -/
theorem c2_early_stop_test_counterexample :
    ∃ res1 resF,
      exhaustiveChunks ctx2W ((chunkSeq ctx2W overworldW).take 1) initResult =
        Except.ok res1 ∧
      claimed_stop_condition ctx2W res1
        ((chunkSeq ctx2W overworldW).getD 1 (0, Chunk.mk 0 0)).1 = true ∧
      stop_condition ctx2W res1
        ((chunkSeq ctx2W overworldW).getD 1 (0, Chunk.mk 0 0)).1 = false ∧
      searchChunksTrace ctx2W (chunkSeq ctx2W overworldW) initResult =
        Except.ok (resF, 2) ∧
      (chunkSeq ctx2W overworldW).length = 2 :=
  ⟨_, _, rfl, rfl, rfl, rfl, rfl⟩

/-- C4: SearchState monotonicity. (1) one block update never loses a found
match and never worsens its recorded cell distance; (2) an update changes a
biome's state only for the block's own requested biome, and only on the
first match or on a strictly smaller Manhattan cell distance; (3) across the
whole tile scan, every biome found at the start is still found at the end at
a distance that is no larger — a found state is never reset. -/
theorem c4_search_state_monotonic (ctx : SearchCtx) :
    (∀ chunk_distance res blk, StateLE ctx res (updateBlock ctx chunk_distance res blk)) ∧
      (∀ chunk_distance res blk b,
        updateBlock ctx chunk_distance res blk b ≠ res b →
          b = blk.biome ∧ blk.biome ∈ ctx.biomes ∧
            (res b = BiomeState.notFound ∨
              ∃ d0 x0 z0, res b = BiomeState.found d0 x0 z0 ∧
                blockDistance ctx blk < cellDistance ctx.start_x ctx.start_z x0 z0)) ∧
      ∀ chunks res final, searchChunks ctx chunks res = Except.ok final →
        StateLE ctx res final :=
  ⟨updateBlock_stateLE ctx,
    fun chunk_distance res blk b => updateBlock_change ctx chunk_distance res blk b,
    searchChunks_stateLE ctx⟩

/-- C4, instantiated: a scan started from a state where plains is already
found keeps plains found and does not worsen its distance. -/
theorem c4_search_state_monotonic_witness :
    ∃ d' x' z',
      (match searchChunks ctx1W (chunkSeq ctx1W overworldW)
          (fun s => if s = "plains" then BiomeState.found 0 3 4 else BiomeState.notFound) with
        | Except.ok final => final
        | Except.error _ => initResult) "plains" = BiomeState.found d' x' z' ∧
      cellDistance ctx1W.start_x ctx1W.start_z x' z' ≤
        cellDistance ctx1W.start_x ctx1W.start_z 3 4 := by
  have h := (c4_search_state_monotonic ctx1W).2.2 (chunkSeq ctx1W overworldW)
    (fun s => if s = "plains" then BiomeState.found 0 3 4 else BiomeState.notFound)
  obtain ⟨final, hfinal⟩ : ∃ final,
      searchChunks ctx1W (chunkSeq ctx1W overworldW)
        (fun s => if s = "plains" then BiomeState.found 0 3 4 else BiomeState.notFound) =
        Except.ok final := ⟨_, rfl⟩
  obtain ⟨d', x', z', hf, hle⟩ := h final hfinal "plains" 0 3 4 (by simp)
  exact ⟨d', x', z', by rw [hfinal]; exact hf, hle⟩

/-- C5: result soundness. For every requested biome set and every dataset,
whenever the search returns, each biome's entry is either not-found or a
coordinate (x, z) such that some cell at that coordinate in the dataset
actually carries that biome classification. -/
theorem c5_result_soundness (ctx : SearchCtx) (overworld : List Chunk)
    (res : ResultMap) (b : String) (d : Nat) (x z : Int)
    (hok : get_closest_coords ctx overworld = Except.ok res)
    (hfound : res b = BiomeState.found d x z) :
    ∃ c blk, isInstanceOf ctx.world overworld b c blk ∧ blk.x = x ∧ blk.z = z := by
  refine searchChunks_sound ctx overworld (chunkSeq ctx overworld) initResult res
    ?_ ?_ hok b d x z hfound
  · intro p hp
    exact (mem_all_chunks_sorted hp).1
  · intro b' d' x' z' h
    exact BiomeState.noConfusion h

/-- C5, instantiated: the concrete plains search returns (1,2), and that
coordinate indeed carries a plains cell in the dataset. -/
theorem c5_result_soundness_witness :
    ∃ c blk, isInstanceOf ctx1W.world overworldW "plains" c blk ∧ blk.x = 1 ∧ blk.z = 2 :=
  c5_result_soundness ctx1W overworldW
    (fun s => if s = "plains" then BiomeState.found 0 1 2 else initResult s)
    "plains" 0 1 2 rfl (by simp)

/-- C6: a requested biome absent from the entire dataset. The scan exhausts
the whole tile sequence (the early stop never fires: the count of fetched
tiles equals the sequence length), the result for that biome is not-found,
and the search returns normally (no error). -/
theorem c6_absent_biome_not_found (ctx : SearchCtx) (overworld : List Chunk) (b : String)
    (hb : b ∈ ctx.biomes)
    (hvalid : ∀ c ∈ overworld, chunkValid ctx.catalog ctx.world c)
    (habsent : ∀ c ∈ overworld, ∀ row ∈ ctx.world c.x c.z, ∀ blk ∈ row, blk.biome ≠ b) :
    ∃ res, searchChunksTrace ctx (chunkSeq ctx overworld) initResult =
        Except.ok (res, (chunkSeq ctx overworld).length) ∧
      res b = BiomeState.notFound ∧
      get_closest_coords ctx overworld = Except.ok res := by
  obtain ⟨res1, htr, hnf⟩ := trace_absent ctx b hb (chunkSeq ctx overworld) initResult
    (fun p hp => hvalid p.2 (mem_all_chunks_sorted hp).1)
    (fun p hp => habsent p.2 (mem_all_chunks_sorted hp).1) rfl
  exact ⟨res1, htr, hnf, searchChunksTrace_fst ctx _ _ _ _ htr⟩

/-- C6, instantiated: desert is requested but occurs nowhere in the concrete
dataset; both tiles are fetched (count 2 = sequence length), desert reads
not-found, and the run returns ok. -/
theorem c6_absent_biome_not_found_witness :
    ∃ res, searchChunksTrace ctx3W (chunkSeq ctx3W overworldW) initResult =
        Except.ok (res, (chunkSeq ctx3W overworldW).length) ∧
      res "desert" = BiomeState.notFound ∧
      get_closest_coords ctx3W overworldW = Except.ok res :=
  c6_absent_biome_not_found ctx3W overworldW "desert" (by decide) (by decide) (by decide)

/-- C7 (amended): caching behavior of one process run. The chunks overview
and the resolved world name are each fetched at most once: a second access
is a pure cache hit — identical content, identical state, no additional
network call, the cache entry never evicted. Per-tile cell-grid fetches, by
contrast, are not cached: repeating the same tile request returns identical
content and leaves the cache unchanged but performs one more network call
every time. -/
theorem c7_cache_behavior (world_arg : Option String) (net : Net) (st : RunState) :
    (∀ l1 st1, fetch_all_chunks world_arg net st = Except.ok (l1, st1) →
      fetch_all_chunks world_arg net st1 = Except.ok (l1, st1)) ∧
      (∀ w st1, get_world world_arg net st = Except.ok (w, st1) →
        get_world world_arg net st1 = Except.ok (w, st1)) ∧
      ∀ cx cz g1 st1, api_json_chunk world_arg net st cx cz = Except.ok (g1, st1) →
        api_json_chunk world_arg net st1 cx cz =
          Except.ok (g1, RunState.mk st1.cache (st1.calls + 1)) := by
  refine ⟨?_, ?_, ?_⟩
  · intro l1 st1 h
    unfold fetch_all_chunks at h ⊢
    cases hc : st.cache.all_chunks with
    | some l =>
      rw [hc] at h
      simp only [Except.ok.injEq, Prod.mk.injEq] at h
      obtain ⟨rfl, rfl⟩ := h
      rw [hc]
    | none =>
      rw [hc] at h
      cases hg : get_world world_arg net st with
      | error e => rw [hg] at h; cases h
      | ok pr =>
        rw [hg] at h
        cases pr with
        | mk w stg =>
          dsimp only at h
          simp only [Except.ok.injEq, Prod.mk.injEq] at h
          obtain ⟨rfl, rfl⟩ := h
          rfl
  · intro w st1 h
    exact get_world_cached world_arg net st st1 w h st1.calls
  · intro cx cz g1 st1 h
    unfold api_json_chunk at h ⊢
    cases hg : get_world world_arg net st with
    | error e => rw [hg] at h; cases h
    | ok pr =>
      rw [hg] at h
      cases pr with
      | mk w stg =>
        dsimp only at h
        simp only [Except.ok.injEq, Prod.mk.injEq] at h
        obtain ⟨rfl, rfl⟩ := h
        rw [get_world_cached world_arg net st stg w hg (stg.calls + 1)]

/-- C7 (amended), instantiated: from a fresh run state, the second overview
fetch is a cache hit with identical content and state. -/
theorem c7_cache_behavior_witness :
    ∃ l1 st1, fetch_all_chunks none netW initRunState = Except.ok (l1, st1) ∧
      fetch_all_chunks none netW st1 = Except.ok (l1, st1) := by
  obtain ⟨l1, st1, h⟩ :
      ∃ l1 st1, fetch_all_chunks none netW initRunState = Except.ok (l1, st1) :=
    ⟨_, _, rfl⟩
  exact ⟨l1, st1, h, (c7_cache_behavior none netW initRunState).1 l1 st1 h⟩

/-- C7, counterexample to the claim as stated: fetching the cell grid of
tile (0,0) twice returns identical content, but the second access is not a
cache hit — the request counter rises from 1 to 2, i.e. the per-tile fetch
performs an additional network call; there is no per-tile fetch cache in
the run state at all (the cache, unchanged, has no slot for tiles). -/
theorem c7_no_tile_cache_counterexample :
    ∃ g1 st1 g2 st2,
      api_json_chunk (some "wurstmineberg") netW initRunState 0 0 =
        Except.ok (g1, st1) ∧
      api_json_chunk (some "wurstmineberg") netW st1 0 0 = Except.ok (g2, st2) ∧
      g2 = g1 ∧ st1.calls = 1 ∧ st2.calls = 2 ∧ st2.cache = st1.cache :=
  ⟨_, _, _, _, rfl, rfl, rfl, rfl, rfl, rfl⟩

/-- C8: the output step evaluated at a failing input. For the single-biome
not-found run the claim expects the line `desert: not found`, but the code's
`result[biome] is None` test is false (the entry is a dict, not None), so
the else branch unpacks the result mapping itself and raises ValueError;
for a two-biome run the unpacking binds two Biome members and the distance
arithmetic raises TypeError. No per-biome lines are ever printed. -/
theorem c8_output_formatting_bug :
    (∃ res, get_closest_coords ctx3W overworldW = Except.ok res ∧
      res "desert" = BiomeState.notFound ∧
      print_results [Biome.mk "desert" 2 true] res 0 0 = Except.error "ValueError") ∧
      ∃ res2, get_closest_coords ctx2W overworldW = Except.ok res2 ∧
        print_results [Biome.mk "plains" 1 false, Biome.mk "desert" 2 true] res2 0 0 =
          Except.error "TypeError" :=
  ⟨⟨_, rfl, rfl, rfl⟩, ⟨_, rfl, rfl⟩⟩

/-- C9: the adv-time selection evaluated at a failing input. With the
adv-time flag set and no positional biome identifiers, the code passes the
full catalog to the search — not the advancement-tracked subset, which here
is the strict subset `[desert]` of the three-biome catalog. -/
theorem c9_adv_time_selection_bug :
    select_biomes catalogW true [] = Except.ok catalogW ∧
      catalogW.filter (fun b => b.adventuringTime) = [Biome.mk "desert" 2 true] ∧
      catalogW.filter (fun b => b.adventuringTime) ≠ catalogW := by
  refine ⟨rfl, rfl, by decide⟩

/-- C10: determinism and tie-breaking. Two runs of the search on the same
fixed data-service responses, requested biomes and start point return the
same result (the embedding of the search is a pure function of these
inputs); and a cell whose Manhattan distance is not strictly smaller than
the incumbent match of its biome — in particular an equally distant cell
encountered later in scan order — leaves the state unchanged, so the first
cell encountered in scan order wins ties. -/
theorem c10_deterministic_first_wins (ctx : SearchCtx) (overworld : List Chunk) :
    get_closest_coords ctx overworld = get_closest_coords ctx overworld ∧
      ∀ chunk_distance res blk d0 x0 z0,
        res blk.biome = BiomeState.found d0 x0 z0 →
        cellDistance ctx.start_x ctx.start_z x0 z0 ≤ blockDistance ctx blk →
        updateBlock ctx chunk_distance res blk = res := by
  refine ⟨Eq.refl _, ?_⟩
  intro chunk_distance res blk d0 x0 z0 hcur hge
  unfold updateBlock
  by_cases hm : blk.biome ∈ ctx.biomes
  · simp only [hm, if_true, hcur]
    rw [if_neg (Nat.not_lt.mpr hge)]
  · simp only [hm, if_false]

/-- C10, instantiated: an equally distant plains cell (distance 7 = 3+4, same
as the incumbent) does not replace the incumbent. -/
theorem c10_deterministic_first_wins_witness :
    updateBlock ctx1W 0
        (fun s => if s = "plains" then BiomeState.found 0 3 4 else BiomeState.notFound)
        (Block.mk 4 3 "plains") =
      fun s => if s = "plains" then BiomeState.found 0 3 4 else BiomeState.notFound :=
  (c10_deterministic_first_wins ctx1W overworldW).2 0 _ (Block.mk 4 3 "plains") 0 3 4
    (by simp) (by decide)

end FindBiomes
